import Mathlib

/-!
Verification of the `gx` repository's opaque-ID codec (`idcodec`) and
flow-control core (`Throttler`, `Debouncer`, `Coalescer`).

Machine words are embedded as `Nat` with explicit reduction modulo `2 ^ 64`
(respectively `2 ^ 32` inside SHA-256); Go byte strings are embedded as
`List Nat` of byte values, and fallible operations return `Except`.
-/

namespace Gx

/-! ### 64-bit word primitives

`rotateLeft64 x k` embeds Go's `bits.RotateLeft64(x, k)` for `0 ≤ k < 64`:
the word is shifted left by `k` and the bits shifted out re-enter on the
right.  `add64`/`sub64` embed wrapping `uint64` addition and subtraction. -/

def rotateLeft64 (x k : Nat) : Nat :=
  ((x <<< k) ||| (x >>> (64 - k))) % 2 ^ 64

def add64 (x y : Nat) : Nat := (x + y) % 2 ^ 64

def sub64 (x y : Nat) : Nat := (x + (2 ^ 64 - y % 2 ^ 64)) % 2 ^ 64

/-! ### SHA-256 and HMAC-SHA-256

Executable embedding of the SHA-256 hash (FIPS 180-4, as used by Go's
`crypto/sha256`) and HMAC (`crypto/hmac`), on byte lists with 32-bit
words as `Nat` reduced modulo `2 ^ 32`.  The codec constructor derives
its subkeys and its MAC from these. -/

def rotateRight32 (x n : Nat) : Nat :=
  ((x >>> n) ||| (x <<< (32 - n))) % 2 ^ 32

def sha256K : List Nat :=
  [1116352408, 1899447441, 3049323471, 3921009573, 961987163,
   1508970993, 2453635748, 2870763221, 3624381080, 310598401,
   607225278, 1426881987, 1925078388, 2162078206, 2614888103,
   3248222580, 3835390401, 4022224774, 264347078, 604807628,
   770255983, 1249150122, 1555081692, 1996064986, 2554220882,
   2821834349, 2952996808, 3210313671, 3336571891, 3584528711,
   113926993, 338241895, 666307205, 773529912, 1294757372,
   1396182291, 1695183700, 1986661051, 2177026350, 2456956037,
   2730485921, 2820302411, 3259730800, 3345764771, 3516065817,
   3600352804, 4094571909, 275423344, 430227734, 506948616,
   659060556, 883997877, 958139571, 1322822218, 1537002063,
   1747873779, 1955562222, 2024104815, 2227730452, 2361852424,
   2428436474, 2756734187, 3204031479, 3329325298]

def sha256H0 : List Nat :=
  [1779033703, 3144134277, 1013904242, 2773480762,
   1359893119, 2600822924, 528734635, 1541459225]

def shaBigSigma0 (x : Nat) : Nat :=
  rotateRight32 x 2 ^^^ rotateRight32 x 13 ^^^ rotateRight32 x 22

def shaBigSigma1 (x : Nat) : Nat :=
  rotateRight32 x 6 ^^^ rotateRight32 x 11 ^^^ rotateRight32 x 25

def shaSmallSigma0 (x : Nat) : Nat :=
  rotateRight32 x 7 ^^^ rotateRight32 x 18 ^^^ (x >>> 3)

def shaSmallSigma1 (x : Nat) : Nat :=
  rotateRight32 x 17 ^^^ rotateRight32 x 19 ^^^ (x >>> 10)

def shaCh (x y z : Nat) : Nat := (x &&& y) ^^^ ((x ^^^ 0xffffffff) &&& z)

def shaMaj (x y z : Nat) : Nat := (x &&& y) ^^^ (x &&& z) ^^^ (y &&& z)

/-- Split a byte list into chunks of `n` bytes (`n > 0`; chunks of 64 for
SHA-256 blocks, 4 for words).  Structural recursion on a fuel argument
(initially the list length, which suffices since every step consumes at
least one element) so that the kernel can evaluate it. -/
def chunkListGo (n : Nat) : Nat → List Nat → List (List Nat)
  | 0, _ => []
  | _ + 1, [] => []
  | fuel + 1, b :: rest => (b :: rest).take n :: chunkListGo n fuel ((b :: rest).drop n)

def chunkList (n : Nat) (l : List Nat) : List (List Nat) :=
  chunkListGo n l.length l

def beWord (bs : List Nat) : Nat := bs.foldl (fun a b => a * 256 + b) 0

def word32ToBytes (w : Nat) : List Nat :=
  [(w >>> 24) % 256, (w >>> 16) % 256, (w >>> 8) % 256, w % 256]

def beBytes8 (n : Nat) : List Nat :=
  [(n >>> 56) % 256, (n >>> 48) % 256, (n >>> 40) % 256, (n >>> 32) % 256,
   (n >>> 24) % 256, (n >>> 16) % 256, (n >>> 8) % 256, n % 256]

/-- Message-schedule extension: `wrev` holds the schedule words most recent
first; `W[t] = σ₁(W[t-2]) + W[t-7] + σ₀(W[t-15]) + W[t-16] (mod 2³²)`. -/
def shaExtend : Nat → List Nat → List Nat
  | 0, wrev => wrev
  | n + 1, wrev =>
    let w := (shaSmallSigma1 (wrev.getD 1 0) + wrev.getD 6 0 +
      shaSmallSigma0 (wrev.getD 14 0) + wrev.getD 15 0) % 2 ^ 32
    shaExtend n (w :: wrev)

def shaRound (st : Nat × Nat × Nat × Nat × Nat × Nat × Nat × Nat)
    (kw : Nat × Nat) : Nat × Nat × Nat × Nat × Nat × Nat × Nat × Nat :=
  let (a, b, c, d, e, f, g, hh) := st
  let (k, w) := kw
  let t1 := (hh + shaBigSigma1 e + shaCh e f g + k + w) % 2 ^ 32
  let t2 := (shaBigSigma0 a + shaMaj a b c) % 2 ^ 32
  ((t1 + t2) % 2 ^ 32, a, b, c, (d + t1) % 2 ^ 32, e, f, g)

def shaCompress (hs : List Nat) (block : List Nat) : List Nat :=
  let w16 := (chunkList 4 block).map beWord
  let w := (shaExtend 48 w16.reverse).reverse
  match hs with
  | [h0, h1, h2, h3, h4, h5, h6, h7] =>
    let (a, b, c, d, e, f, g, hh) :=
      (sha256K.zip w).foldl shaRound (h0, h1, h2, h3, h4, h5, h6, h7)
    [(h0 + a) % 2 ^ 32, (h1 + b) % 2 ^ 32, (h2 + c) % 2 ^ 32,
     (h3 + d) % 2 ^ 32, (h4 + e) % 2 ^ 32, (h5 + f) % 2 ^ 32,
     (h6 + g) % 2 ^ 32, (h7 + hh) % 2 ^ 32]
  | _ => hs

def sha256 (msg : List Nat) : List Nat :=
  let zeros := (64 - (msg.length + 9) % 64) % 64
  let padded := msg ++ [0x80] ++ List.replicate zeros 0 ++
    beBytes8 (msg.length * 8)
  let blocks := chunkList 64 padded
  ((blocks.foldl shaCompress sha256H0).map word32ToBytes).flatten

def hmacSha256 (key msg : List Nat) : List Nat :=
  let key := if 64 < key.length then sha256 key else key
  let key := key ++ List.replicate (64 - key.length) 0
  let ipadded := key.map (fun b => b ^^^ 0x36)
  let opadded := key.map (fun b => b ^^^ 0x5c)
  sha256 (opadded ++ sha256 (ipadded ++ msg))

/-! ### The `idcodec` codec

Embedding of `idcodec`'s `Codec`: errors, reverse-lookup table, fixed
11-character base-62 body, HMAC-derived padding, token assembly, and the
decode pipeline, translated from `NewCodecFromSecret`, `base62EncodeFixed`,
`base62DecodeFixed`, `permutation`, `inversePermutation`, `hmacPadding`,
`token`, `EncodeUint64`, `decodeInternal` and `DecodeBodyOnly`. -/

/-- Byte values of `DefaultAlphabet = "0123456789A..Za..z"`. -/
def defaultAlphabet : List Nat :=
  [48, 49, 50, 51, 52, 53, 54, 55, 56, 57,
   65, 66, 67, 68, 69, 70, 71, 72, 73, 74, 75, 76, 77, 78, 79,
   80, 81, 82, 83, 84, 85, 86, 87, 88, 89, 90,
   97, 98, 99, 100, 101, 102, 103, 104, 105, 106, 107, 108, 109,
   110, 111, 112, 113, 114, 115, 116, 117, 118, 119, 120, 121, 122]

/-- The five error identities of `idcodec` (`ErrInvalidLength`,
`ErrVersionMismatch`, `ErrMACVerification`, `ErrInvalidBase62Char`,
`ErrBadConfig`). -/
inductive CodecErr where
  | invalidLength
  | versionMismatch
  | macVerification
  | invalidBase62Char
  | badConfig
deriving DecidableEq, Repr

/-- The `rev` table built by `NewCodecFromSecret`: start at `-1`
everywhere, then `for i := 0; i < len(alp) && i < 62; i++ { rev[alp[i]] = i }`
(later writes overwrite earlier ones). -/
def buildRev (alp : List Nat) : Nat → Int :=
  (List.range (min alp.length 62)).foldl
    (fun rev i => fun b => if b = alp.getD i 0 then (i : Int) else rev b)
    (fun _ => -1)

structure Codec where
  version : Nat
  macLen : Nat
  alphabet : List Nat
  k1 : Nat
  k2 : Nat
  k3 : Nat
  k4 : Nat
  macKey : List Nat
  domain : List Nat
  kind : Option Nat
deriving DecidableEq, Repr, Inhabited

def Codec.rev (c : Codec) (b : Nat) : Int := buildRev c.alphabet b

/-- Successive least-significant base-62 digits of `u` (`u % 62`, then of
`u / 62`, ...); `base62EncodeFixed` writes them into `buf[10]` down to
`buf[0]`, i.e. the buffer is their reversal. -/
def base62Digits : Nat → Nat → List Nat
  | 0, _ => []
  | n + 1, u => u % 62 :: base62Digits n (u / 62)

def Codec.base62EncodeFixed (c : Codec) (u : Nat) : List Nat :=
  (base62Digits 11 u).reverse.map (fun d => c.alphabet.getD d 0)

/-- The digit-accumulation loop of `base62DecodeFixed`:
`u = u*62 + rev[s[i]]`, failing on a negative `rev` entry. -/
def base62DecodeGo (c : Codec) : List Nat → Nat → Except CodecErr Nat
  | [], u => .ok u
  | ch :: rest, u =>
    let v := c.rev ch
    if v < 0 then .error .invalidBase62Char
    else base62DecodeGo c rest (u * 62 + v.toNat)

def Codec.base62DecodeFixed (c : Codec) (s : List Nat) : Except CodecErr Nat :=
  if s.length ≠ 11 then .error .invalidLength
  else base62DecodeGo c s 0

def Codec.permutation (c : Codec) (x : Nat) : Nat :=
  let x1 := x ^^^ c.k1
  let x2 := rotateLeft64 x1 17
  let x3 := add64 x2 c.k2
  let x4 := rotateLeft64 x3 31
  let x5 := x4 ^^^ c.k3
  add64 x5 c.k4

/-- `bits.RotateLeft64(x, -31)` is a left-rotation by `33`, and
`bits.RotateLeft64(x, -17)` one by `47`. -/
def Codec.inversePermutation (c : Codec) (x : Nat) : Nat :=
  let x1 := sub64 x c.k4
  let x2 := x1 ^^^ c.k3
  let x3 := rotateLeft64 x2 33
  let x4 := sub64 x3 c.k2
  let x5 := rotateLeft64 x4 47
  x5 ^^^ c.k1

/-- The inner `for bitsIn < 6 && src < len(sum)` loop of `hmacPadding`:
shift whole HMAC bytes into the bit buffer until at least 6 bits are held
or the HMAC is exhausted.  Returns the buffer, its fill, and the
remaining bytes. -/
def fill6 : List Nat → Nat → Nat → Nat × Nat × List Nat
  | [], bitbuf, bitsIn => (bitbuf, bitsIn, [])
  | b :: rest, bitbuf, bitsIn =>
    if bitsIn < 6 then fill6 rest ((bitbuf <<< 8) ||| b) (bitsIn + 8)
    else (bitbuf, bitsIn, b :: rest)

/-- The outer `for idx < c.macLen` loop of `hmacPadding`: emit one
alphabet character per iteration from the top 6 bits of the buffer,
mapping values `{62, 63}` to `{60, 61}`. -/
def padChars (alp : List Nat) : Nat → List Nat → Nat → Nat → List Nat
  | 0, _, _, _ => []
  | count + 1, sum, bitbuf, bitsIn =>
    match fill6 sum bitbuf bitsIn with
    | (bb1, bi1, sum1) =>
      let bb2 := if bi1 < 6 then bb1 <<< (6 - bi1) else bb1
      let bi2 := if bi1 < 6 then 6 else bi1
      let shift := bi2 - 6
      let v := (bb2 >>> shift) &&& 0x3f
      let v2 := if 62 ≤ v then v - 2 else v
      alp.getD v2 0 :: padChars alp count sum1 bb2 (bi2 - 6)

def Codec.hmacPadding (c : Codec) (encrypted : Nat) (kind : Option Nat) :
    List Nat :=
  let msg := (if 0 < c.domain.length then c.domain else []) ++
    (match kind with | some k => [k] | none => []) ++
    [c.alphabet.getD c.version 0] ++ beBytes8 encrypted
  padChars c.alphabet c.macLen (hmacSha256 c.macKey msg) 0 0

def Codec.token (c : Codec) (enc : Nat) (kind : Option Nat) : List Nat :=
  c.alphabet.getD c.version 0 :: (c.base62EncodeFixed enc ++
    c.hmacPadding enc kind)

def Codec.encodeUint64WithKind (c : Codec) (id : Nat) (kind : Option Nat) :
    List Nat :=
  c.token (c.permutation id) kind

def Codec.encodeUint64 (c : Codec) (id : Nat) : List Nat :=
  c.encodeUint64WithKind id c.kind

/-- `decodeInternal`: length check, version-character check, base-62 body
decode, constant-time MAC comparison (equality of byte lists), then
`inversePermutation`.  `subtle.ConstantTimeCompare` returns 1 exactly when
the two byte strings are equal as sequences. -/
def Codec.decodeInternal (c : Codec) (s : List Nat) (needValue : Bool)
    (kind : Option Nat) : Except CodecErr Nat :=
  if s.length ≠ 1 + 11 + c.macLen then .error .invalidLength
  else
    let verCh := s.getD 0 0
    if c.rev verCh ≠ (c.version : Int) then .error .versionMismatch
    else
      match c.base62DecodeFixed ((s.drop 1).take 11) with
      | .error e => .error e
      | .ok enc =>
        let pad := s.drop (1 + 11)
        let expected := c.hmacPadding enc kind
        if pad ≠ expected then .error .macVerification
        else if needValue = false then .ok 0
        else .ok (c.inversePermutation enc)

def Codec.decodeToUint64WithKind (c : Codec) (s : List Nat)
    (kind : Option Nat) : Except CodecErr Nat :=
  c.decodeInternal s true kind

def Codec.decodeToUint64 (c : Codec) (s : List Nat) : Except CodecErr Nat :=
  c.decodeToUint64WithKind s c.kind

def Codec.decodeBodyOnly (c : Codec) (s : List Nat) : Except CodecErr Nat :=
  if s.length < 1 + 11 then .error .invalidLength
  else c.base62DecodeFixed ((s.drop 1).take 11)

structure Config where
  secret : List Nat
  version : Nat
  macLen : Int
  alphabet : List Nat
  domain : List Nat
  kind : Option Nat
deriving DecidableEq, Repr

/-- `NewCodecFromSecret`: reject `macLen ≤ 0`, `version ≥ 62` and
alphabets shorter than 62 (an empty alphabet falls back to the default);
derive `k1..k4` from `SHA-256(SHA-256(secret) ∥ 'K')` split big-endian and
the MAC key from `SHA-256(SHA-256(secret) ∥ 'M')`. -/
def newCodecFromSecret (cfg : Config) : Except CodecErr Codec :=
  if cfg.macLen ≤ 0 then .error .badConfig
  else if 62 ≤ cfg.version then .error .badConfig
  else
    let alp := if cfg.alphabet = [] then defaultAlphabet else cfg.alphabet
    if alp.length < 62 then .error .badConfig
    else
      let kMaster := sha256 cfg.secret
      let kRaw := sha256 (kMaster ++ [0x4b])
      let mac := sha256 (kMaster ++ [0x4d])
      .ok
        { version := cfg.version
          macLen := cfg.macLen.toNat
          alphabet := alp
          k1 := beWord (kRaw.take 8)
          k2 := beWord ((kRaw.drop 8).take 8)
          k3 := beWord ((kRaw.drop 16).take 8)
          k4 := beWord ((kRaw.drop 24).take 8)
          macKey := mac
          domain := cfg.domain
          kind := cfg.kind }

deriving instance DecidableEq for Except

/-! ### Properties of the reverse-lookup table -/

/-- The first `min (length alp) 62` alphabet positions are pairwise
distinct — exactly the positions the `rev`-table construction reads. -/
def distinctFirst62 (alp : List Nat) : Prop :=
  ∀ i < min alp.length 62, ∀ j < min alp.length 62,
    alp.getD i 0 = alp.getD j 0 → i = j

instance (alp : List Nat) : Decidable (distinctFirst62 alp) := by
  unfold distinctFirst62; infer_instance

/-- `buildRev` truncated to the first `n` loop iterations. -/
def revFold (alp : List Nat) (n : Nat) : Nat → Int :=
  (List.range n).foldl
    (fun rev i => fun b => if b = alp.getD i 0 then (i : Int) else rev b)
    (fun _ => -1)

/-! ### Concrete codecs for witnesses and counterexamples -/

/-- A well-formed configuration: secret `"gx"`, version 0, `macLen` 1,
default alphabet. -/
def cfgW : Config :=
  { secret := [103, 120], version := 0, macLen := 1,
    alphabet := [], domain := [], kind := none }

def codecW : Codec := ((newCodecFromSecret cfgW).toOption).getD default

/-- A configuration whose alphabet is the default one with a duplicated
leading `'0'`: 63 characters, 62 of them distinct, but positions 0 and 1
collide. -/
def cfgDup : Config :=
  { secret := [], version := 0, macLen := 1,
    alphabet := 48 :: defaultAlphabet, domain := [], kind := none }

def codecDup : Codec := ((newCodecFromSecret cfgDup).toOption).getD default

/-! ### Flow-control core: data model

Time-free embedding of the `goconc` flow-control file.  Mutable state
becomes explicit state records; callback invocations become events in the
returned event list, in invocation order (`DebEvent.cb v` for the trigger
callback, `.onStopCall v` for `opts.OnStop`, and analogously for the
coalescer's `emit`).  Timers carry no observable callback of their own, so
arming/resetting them is not part of the state; a timer expiry is the
`debTimerExpire`/`coExpire` step, guarded exactly as the corresponding
loop body. -/

inductive StopMode where
  | noop
  | flush
  | callbackOnly
  | flushAndCallback
deriving DecidableEq, Repr

structure DebOpts (T : Type) where
  leading : Bool
  trailing : Bool
  stopMode : StopMode
  hasOnStop : Bool
deriving DecidableEq, Repr

structure DebState (T : Type) where
  last : T
  pending : Bool
  stopped : Bool
deriving DecidableEq, Repr

inductive DebEvent (T : Type) where
  | cb (v : T)
  | onStopCall (v : T)
deriving DecidableEq, Repr

/-- `NewDebouncer` option normalization: `Wait ≤ 0` is rejected; if both
`leading` and `trailing` are unset, `trailing` is forced true. -/
def newDebouncer (T : Type) (wait : Int) (opts : DebOpts T) :
    Option (DebOpts T) :=
  if wait ≤ 0 then none
  else if !opts.leading && !opts.trailing then
    some { opts with trailing := true }
  else some opts

/-- A fresh debouncer: `last` is the Go zero value of `T`, nothing
pending, not stopped. -/
def debInit (T : Type) [Inhabited T] : DebState T :=
  { last := default, pending := false, stopped := false }

def debTrigger {T : Type} (opts : DebOpts T) (v : T) (s : DebState T) :
    DebState T × List (DebEvent T) :=
  if s.stopped then (s, [])
  else
    let first := !s.pending
    let s1 := { s with pending := true, last := v }
    if opts.leading && first then (s1, [.cb v]) else (s1, [])

def debFlush {T : Type} (opts : DebOpts T) (s : DebState T) :
    DebState T × List (DebEvent T) :=
  if s.stopped || !s.pending then (s, [])
  else ({ s with pending := false },
    if opts.trailing then [.cb s.last] else [])

/-- One guarded `timerLoop` (or `maxLoop`) iteration body after the timer
channel fires. -/
def debTimerExpire {T : Type} (opts : DebOpts T) (s : DebState T) :
    DebState T × List (DebEvent T) :=
  if s.stopped then (s, [])
  else ({ s with pending := false },
    if opts.trailing && s.pending then [.cb s.last] else [])

/-- `debouncer.Stop`: snapshot `(pending, last)` under the lock, compute
`shouldFlush`/`shouldCallback`, mark stopped and clear pending, then emit
the flush callback first and `OnStop` second, both with the pre-flush
`last`. -/
def debStop {T : Type} (opts : DebOpts T) (s : DebState T) :
    DebState T × List (DebEvent T) :=
  if s.stopped then (s, [])
  else
    let shouldFlush :=
      (opts.stopMode == .flush || opts.stopMode == .flushAndCallback) &&
        s.pending && opts.trailing
    let shouldCallback :=
      (opts.stopMode == .callbackOnly ||
        opts.stopMode == .flushAndCallback) && opts.hasOnStop
    ({ s with stopped := true, pending := false },
      (if shouldFlush then [.cb s.last] else []) ++
        (if shouldCallback then [.onStopCall s.last] else []))

structure CoState (T : Type) where
  acc : T
  hasAcc : Bool
  stopped : Bool
deriving DecidableEq, Repr

inductive CoEvent (T : Type) where
  | emitCall (v : T)
  | onStopCall (v : T)
deriving DecidableEq, Repr

def coInit (T : Type) [Inhabited T] : CoState T :=
  { acc := default, hasAcc := false, stopped := false }

/-- `coalescer.Add`: first add of a window stores the value, later adds
fold it into the accumulator. -/
def coAdd {T : Type} (folder : T → T → T) (v : T) (s : CoState T) :
    CoState T :=
  if s.stopped then s
  else if !s.hasAcc then { s with acc := v, hasAcc := true }
  else { s with acc := folder s.acc v }

def coAddList {T : Type} (folder : T → T → T) (vs : List T) (s : CoState T) :
    CoState T :=
  vs.foldl (fun st v => coAdd folder v st) s

def coFlush {T : Type} (s : CoState T) : CoState T × List (CoEvent T) :=
  if s.stopped || !s.hasAcc then (s, [])
  else ({ s with hasAcc := false }, [.emitCall s.acc])

/-- One guarded `coalescer.loop` iteration body after the window timer
fires. -/
def coExpire {T : Type} (s : CoState T) : CoState T × List (CoEvent T) :=
  if s.stopped then (s, [])
  else if s.hasAcc then ({ s with hasAcc := false }, [.emitCall s.acc])
  else (s, [])

/-- `coalescer.Stop`: snapshot `(hasAcc, acc)`, mark stopped, clear
`hasAcc`, then flush first and call `OnStop` second, both with the
pre-flush accumulator. -/
def coStop {T : Type} (stopMode : StopMode) (hasOnStop : Bool)
    (s : CoState T) : CoState T × List (CoEvent T) :=
  if s.stopped then (s, [])
  else
    let shouldFlush :=
      (stopMode == .flush || stopMode == .flushAndCallback) && s.hasAcc
    let shouldCallback :=
      (stopMode == .callbackOnly || stopMode == .flushAndCallback) &&
        hasOnStop
    ({ s with stopped := true, hasAcc := false },
      (if shouldFlush then [.emitCall s.acc] else []) ++
        (if shouldCallback then [.onStopCall s.acc] else []))

/-! ### Throttler model

The token bucket is the buffered channel `tokens` (here: its fill count
plus its capacity), `stop` is a closable channel (here: `stopClosed`),
and `stopOnce` a `sync.Once` (here: `stopOnceDone`).  `Acquire` is a Go
`select` over ready cases, which is nondeterministic when several cases
are ready, so it is embedded as a step relation. -/

structure ThrState where
  burst : Nat
  tokens : Nat
  stopClosed : Bool
  stopOnceDone : Bool
deriving DecidableEq, Repr

/-- `NewThrottler`: rejects `Interval ≤ 0`, clamps `Burst < 1` to 1, and
warms the bucket to capacity. -/
def newThrottler (interval : Int) (burst : Int) : Option ThrState :=
  if interval ≤ 0 then none
  else
    let b := if burst < 1 then 1 else burst
    some { burst := b.toNat, tokens := b.toNat,
           stopClosed := false, stopOnceDone := false }

/-- `TryAcquire`: non-blocking receive from `tokens` with a `default`
branch — it never consults the stop channel. -/
def tryAcquire (s : ThrState) : Bool × ThrState :=
  if 0 < s.tokens then (true, { s with tokens := s.tokens - 1 })
  else (false, s)

inductive AcquireResult where
  | canceled
  | stoppedErr
  | ok
deriving DecidableEq, Repr

/-- `Acquire`'s `select`: any ready case may be chosen.  `ctx.Done` is
ready when `ctxDone`, the stop case when the stop channel is closed, and
the token case when the bucket is non-empty. -/
inductive AcquireStep : Bool → ThrState → AcquireResult × ThrState → Prop
  | canceled {s : ThrState} : AcquireStep true s (.canceled, s)
  | stopped {ctxDone : Bool} {s : ThrState} (h : s.stopClosed = true) :
      AcquireStep ctxDone s (.stoppedErr, s)
  | token {ctxDone : Bool} {s : ThrState} (h : 0 < s.tokens) :
      AcquireStep ctxDone s (.ok, { s with tokens := s.tokens - 1 })

/-- One iteration of the `refill` loop's `select`.  Its three cases —
`<-ctx.Done()`, `<-t.stop`, `<-tk.C` — are peers with no priority, so
whenever several are ready Go picks one pseudo-randomly: after
`close(t.stop)` a pending ticker tick may still win the select and
deposit a token.  The context and stop cases exit the loop (no state
change); a tick deposits one token via a `select` with `default`,
dropping it when the bucket is full. -/
inductive RefillStep : Bool → ThrState → ThrState → Prop
  | ctxExit {s : ThrState} : RefillStep true s s
  | stopExit {ctxDone : Bool} {s : ThrState} (h : s.stopClosed = true) :
      RefillStep ctxDone s s
  | tickDeposit {ctxDone : Bool} {s : ThrState} (h : s.tokens < s.burst) :
      RefillStep ctxDone s { s with tokens := s.tokens + 1 }
  | tickFull {ctxDone : Bool} {s : ThrState} (h : ¬ s.tokens < s.burst) :
      RefillStep ctxDone s s

inductive ThrEvent where
  | onStopCall
  | stopPublished
deriving DecidableEq, Repr

/-- `throttler.Stop`: under `stopOnce`, run `onStop` (when configured)
and then close the stop channel. -/
def thrStop (hasOnStop : Bool) (s : ThrState) : ThrState × List ThrEvent :=
  if s.stopOnceDone then (s, [])
  else ({ s with stopOnceDone := true, stopClosed := true },
    (if hasOnStop then [.onStopCall] else []) ++ [.stopPublished])

/-- `n` sequential `Stop` calls, accumulating their events. -/
def thrStopN (hasOnStop : Bool) : Nat → ThrState → ThrState × List ThrEvent
  | 0, s => (s, [])
  | n + 1, s =>
    let r := thrStop hasOnStop s
    let r2 := thrStopN hasOnStop n r.1
    (r2.1, r.2 ++ r2.2)

/-- A concrete throttler: interval 20, burst 2, bucket warmed to 2. -/
def thrW : ThrState :=
  (newThrottler 20 2).getD
    { burst := 0, tokens := 0, stopClosed := false, stopOnceDone := false }

/-- `thrW` after one `Stop` call: stop published, bucket untouched. -/
def thrWStopped : ThrState := (thrStop true thrW).1

/-- `thrWStopped` after its two remaining tokens have been consumed. -/
def thrWEmpty : ThrState := (tryAcquire (tryAcquire thrWStopped).2).2

/-! ### Lock-placement traces

Each function of the flow-control file is projected onto its sequence of
lock operations and callback invocations, in program order: `.lockE` for
`mu.Lock()`, `.unlockE` for `mu.Unlock()` (deferred unlocks appear at
return), `.cbE` for any user-callback invocation (`cb`, `emit`,
`OnStop`).  `cbUnderLock` holds when some callback occurs while the lock
depth is positive. -/

inductive LEvent where
  | lockE
  | unlockE
  | cbE
deriving DecidableEq, Repr

def cbUnderLockGo : List LEvent → Nat → Bool
  | [], _ => false
  | .lockE :: r, d => cbUnderLockGo r (d + 1)
  | .unlockE :: r, d => cbUnderLockGo r (d - 1)
  | .cbE :: r, d => decide (0 < d) || cbUnderLockGo r d

def cbUnderLock (tr : List LEvent) : Bool := cbUnderLockGo tr 0

/-- `debouncer.Trigger`: `Lock`, `defer Unlock`; in the leading-first
case `d.cb(v)` runs before the function returns, i.e. before the
deferred unlock. -/
def debTriggerTrace {T : Type} (opts : DebOpts T) (s : DebState T) :
    List LEvent :=
  [.lockE] ++
    (if s.stopped then []
     else if opts.leading && !s.pending then [.cbE] else []) ++
    [.unlockE]

/-- `debouncer.Flush`: `Lock`, `defer Unlock`; the trailing callback runs
before the deferred unlock. -/
def debFlushTrace {T : Type} (opts : DebOpts T) (s : DebState T) :
    List LEvent :=
  [.lockE] ++
    (if s.stopped || !s.pending then []
     else if opts.trailing then [.cbE] else []) ++
    [.unlockE]

/-- One `debouncer.timerLoop` iteration after the timer fires: `Lock`,
conditional `d.cb(d.last)`, `Unlock`. -/
def debTimerTrace {T : Type} (opts : DebOpts T) (s : DebState T) :
    List LEvent :=
  [.lockE] ++
    (if s.stopped then []
     else if opts.trailing && s.pending then [.cbE] else []) ++
    [.unlockE]

/-- `debouncer.Stop`: snapshot under the lock, unlock, then run the
flush callback and `OnStop` outside the lock. -/
def debStopTrace {T : Type} (opts : DebOpts T) (s : DebState T) :
    List LEvent :=
  if s.stopped then [.lockE, .unlockE]
  else
    [.lockE, .unlockE] ++
      (if (opts.stopMode == .flush || opts.stopMode == .flushAndCallback)
          && s.pending && opts.trailing then [.cbE] else []) ++
      (if (opts.stopMode == .callbackOnly ||
          opts.stopMode == .flushAndCallback) && opts.hasOnStop then
        [.cbE] else [])

/-- `coalescer.Flush`: `Lock`, `defer Unlock`; on the emitting path the
lock is dropped, `emit` runs, and the lock is retaken so the deferred
unlock rebalances. -/
def coFlushTrace {T : Type} (s : CoState T) : List LEvent :=
  if s.stopped || !s.hasAcc then [.lockE, .unlockE]
  else [.lockE, .unlockE, .cbE, .lockE, .unlockE]

/-- One `coalescer.loop` iteration after the window timer fires: the
lock is released before `emit`. -/
def coLoopTrace {T : Type} (s : CoState T) : List LEvent :=
  if s.stopped then [.lockE, .unlockE]
  else if s.hasAcc then [.lockE, .unlockE, .cbE]
  else [.lockE, .unlockE]

/-- `coalescer.Stop`: snapshot under the lock, unlock, then `emit` and
`OnStop` outside the lock. -/
def coStopTrace {T : Type} (stopMode : StopMode) (hasOnStop : Bool)
    (s : CoState T) : List LEvent :=
  if s.stopped then [.lockE, .unlockE]
  else
    [.lockE, .unlockE] ++
      (if (stopMode == .flush || stopMode == .flushAndCallback) &&
          s.hasAcc then [.cbE] else []) ++
      (if (stopMode == .callbackOnly || stopMode == .flushAndCallback) &&
          hasOnStop then [.cbE] else [])

/-! ### The `ID` JSON adapter

`ID.UnmarshalJSON` is embedded at the JSON-value level: the adapter
receives the raw bytes of one JSON value, compares them with `"null"`,
then tries `json.Unmarshal` into a string and into a `uint64`.  At this
level a value is `null`, a string (its decoded Go string bytes), a
number representable as `uint64`, or anything else (`other`), which both
unmarshal attempts reject.  `getCodec` reads the process-global default
codec, which is either unset (`none`) or a codec. -/

inductive JSONValue where
  | null
  | str (s : List Nat)
  | num (n : Nat)
  | other
deriving DecidableEq, Repr

/-- ASCII whitespace as trimmed by `strings.TrimSpace` (tokens and the
test inputs are ASCII). -/
def isSpaceByte (b : Nat) : Bool :=
  b == 32 || b == 9 || b == 10 || b == 11 || b == 12 || b == 13

def trimSpace (s : List Nat) : List Nat :=
  ((s.dropWhile isSpaceByte).reverse.dropWhile isSpaceByte).reverse

inductive UnmarshalErr where
  | codecUnset
  | invalidEncoded (e : CodecErr)
  | badShape
deriving DecidableEq, Repr

/-- `ID.UnmarshalJSON`: `null` → 0; a string is trimmed, the empty
string maps to 0, otherwise it is decoded through the default codec
(unset codec or failed decode are errors); a `uint64` number is taken
raw; any other shape is an error. -/
def idUnmarshalJSON (codec : Option Codec) (v : JSONValue) :
    Except UnmarshalErr Nat :=
  match v with
  | .null => .ok 0
  | .str s =>
    let t := trimSpace s
    if t = [] then .ok 0
    else
      match codec with
      | none => .error .codecUnset
      | some c =>
        match c.decodeToUint64 t with
        | .error e => .error (.invalidEncoded e)
        | .ok u => .ok u
  | .num n => .ok n
  | .other => .error .badShape

theorem rotateLeft64_lt (x k : Nat) : rotateLeft64 x k < 2 ^ 64 :=
  Nat.mod_lt _ (Nat.pos_pow_of_pos _ (by omega))

theorem add64_lt (x y : Nat) : add64 x y < 2 ^ 64 :=
  Nat.mod_lt _ (Nat.pos_pow_of_pos _ (by omega))

theorem sub64_lt (x y : Nat) : sub64 x y < 2 ^ 64 :=
  Nat.mod_lt _ (Nat.pos_pow_of_pos _ (by omega))

theorem testBit_rotateLeft64 {x k i : Nat} (hx : x < 2 ^ 64)
    (hk0 : 0 < k) (hk : k < 64) (hi : i < 64) :
    (rotateLeft64 x k).testBit i =
      if k ≤ i then x.testBit (i - k) else x.testBit (64 - k + i) := by
  unfold rotateLeft64
  rw [Nat.testBit_mod_two_pow, Nat.testBit_lor, Nat.testBit_shiftLeft,
    Nat.testBit_shiftRight]
  by_cases hki : k ≤ i
  · have h64 : x.testBit (64 - k + i) = false :=
      Nat.testBit_lt_two_pow (lt_of_lt_of_le hx
        (Nat.pow_le_pow_right (by omega) (by omega)))
    simp [hi, hki, h64, ge_iff_le]
  · simp [hi, hki, ge_iff_le]

theorem rotateLeft64_inverse {x k j : Nat} (hx : x < 2 ^ 64)
    (hk0 : 0 < k) (hk : k < 64) (hj : j = 64 - k) :
    rotateLeft64 (rotateLeft64 x k) j = x := by
  have hy : rotateLeft64 x k < 2 ^ 64 := rotateLeft64_lt x k
  apply Nat.eq_of_testBit_eq
  intro i
  by_cases hi : i < 64
  · rw [testBit_rotateLeft64 hy (by omega) (by omega) hi]
    by_cases hji : j ≤ i
    · rw [testBit_rotateLeft64 hx hk0 hk (by omega)]
      have hlt : ¬ k ≤ i - j := by omega
      rw [if_pos hji, if_neg hlt]
      congr 1
      omega
    · rw [if_neg hji, testBit_rotateLeft64 hx hk0 hk (by omega)]
      have hge : k ≤ 64 - j + i := by omega
      rw [if_pos hge]
      congr 1
      omega
  · have h₁ : (rotateLeft64 (rotateLeft64 x k) j).testBit i = false :=
      Nat.testBit_lt_two_pow (lt_of_lt_of_le (rotateLeft64_lt _ _)
        (Nat.pow_le_pow_right (by omega) (by omega)))
    have h₂ : x.testBit i = false :=
      Nat.testBit_lt_two_pow (lt_of_lt_of_le hx
        (Nat.pow_le_pow_right (by omega) (by omega)))
    rw [h₁, h₂]

theorem sub64_add64 {x y : Nat} (hx : x < 2 ^ 64) (hy : y < 2 ^ 64) :
    sub64 (add64 x y) y = x := by
  unfold sub64 add64
  rw [Nat.mod_eq_of_lt hy, Nat.mod_add_mod]
  have h : x + y + (2 ^ 64 - y) = x + 2 ^ 64 := by omega
  rw [h, Nat.add_mod_right, Nat.mod_eq_of_lt hx]

theorem buildRev_eq_revFold (alp : List Nat) :
    buildRev alp = revFold alp (min alp.length 62) := rfl

theorem revFold_succ (alp : List Nat) (n : Nat) :
    revFold alp (n + 1) =
      fun b => if b = alp.getD n 0 then (n : Int) else revFold alp n b := by
  unfold revFold
  rw [List.range_succ, List.foldl_append]
  rfl

theorem revFold_self (alp : List Nat) : ∀ n : Nat,
    (∀ i < n, ∀ j < n, alp.getD i 0 = alp.getD j 0 → i = j) →
    ∀ i < n, revFold alp n (alp.getD i 0) = i := by
  intro n
  induction n with
  | zero => intro _ i hi; omega
  | succ n ih =>
    intro hd i hi
    rw [revFold_succ]
    by_cases hin : i = n
    · subst hin; simp
    · have hne : alp.getD i 0 ≠ alp.getD n 0 :=
        fun he => hin (hd i (by omega) n (by omega) he)
      simp only [if_neg hne]
      exact ih (fun a ha b hb he => hd a (by omega) b (by omega) he) i
        (by omega)

theorem revFold_mem_nonneg (alp : List Nat) : ∀ (n i b : Nat), i < n →
    alp.getD i 0 = b → 0 ≤ revFold alp n b := by
  intro n
  induction n with
  | zero => intro i b hi; omega
  | succ n ih =>
    intro i b hi hb
    rw [revFold_succ]
    by_cases hbn : b = alp.getD n 0
    · simp [hbn]
    · simp only [if_neg hbn]
      have hin : i ≠ n := fun he => hbn (he ▸ hb.symm)
      exact ih i b (by omega) hb

theorem revFold_cases (alp : List Nat) : ∀ n b, revFold alp n b = -1 ∨
    ∃ i < n, alp.getD i 0 = b ∧ revFold alp n b = i := by
  intro n
  induction n with
  | zero => intro b; left; rfl
  | succ n ih =>
    intro b
    rw [revFold_succ]
    by_cases hbn : b = alp.getD n 0
    · right; exact ⟨n, by omega, hbn.symm, by simp [hbn]⟩
    · simp only [if_neg hbn]
      rcases ih b with h | ⟨i, hi, hb, hv⟩
      · left; exact h
      · right; exact ⟨i, by omega, hb, hv⟩

theorem revFold_neg_iff (alp : List Nat) (n b : Nat) :
    revFold alp n b < 0 ↔ ∀ i < n, alp.getD i 0 ≠ b := by
  constructor
  · intro hneg i hi he
    have := revFold_mem_nonneg alp n i b hi he
    omega
  · intro hno
    rcases revFold_cases alp n b with h | ⟨i, hi, hb, hv⟩
    · rw [h]; omega
    · exact absurd hb (hno i hi)

theorem buildRev_self {alp : List Nat} (hd : distinctFirst62 alp) {i : Nat}
    (hi : i < min alp.length 62) : buildRev alp (alp.getD i 0) = i := by
  rw [buildRev_eq_revFold]
  exact revFold_self alp _ hd i hi

/-! ### Base-62 body lemmas -/

theorem base62Digits_length : ∀ n u, (base62Digits n u).length = n := by
  intro n
  induction n with
  | zero => intro u; rfl
  | succ n ih => intro u; simp [base62Digits, ih]

theorem base62Digits_lt : ∀ n u, ∀ d ∈ base62Digits n u, d < 62 := by
  intro n
  induction n with
  | zero => intro u d hd; simp [base62Digits] at hd
  | succ n ih =>
    intro u d hd
    simp only [base62Digits, List.mem_cons] at hd
    rcases hd with h | h
    · subst h; exact Nat.mod_lt _ (by omega)
    · exact ih _ d h

theorem base62Digits_foldl : ∀ n u acc, u < 62 ^ n →
    (base62Digits n u).reverse.foldl (fun a d => a * 62 + d) acc =
      acc * 62 ^ n + u := by
  intro n
  induction n with
  | zero =>
    intro u acc hu
    have : u = 0 := by omega
    simp [base62Digits, this]
  | succ n ih =>
    intro u acc hu
    have hdiv : u / 62 < 62 ^ n := by
      rw [Nat.div_lt_iff_lt_mul (by omega)]
      calc u < 62 ^ (n + 1) := hu
        _ = 62 ^ n * 62 := by rw [Nat.pow_succ]
    simp only [base62Digits, List.reverse_cons, List.foldl_append,
      ih (u / 62) acc hdiv, List.foldl_cons, List.foldl_nil]
    rw [Nat.pow_succ]
    have := Nat.div_add_mod u 62
    ring_nf
    omega

theorem base62DecodeGo_map {c : Codec} (hlen : 62 ≤ c.alphabet.length)
    (hd : distinctFirst62 c.alphabet) :
    ∀ (ds : List Nat) (acc : Nat), (∀ d ∈ ds, d < 62) →
    base62DecodeGo c (ds.map (fun d => c.alphabet.getD d 0)) acc =
      .ok (ds.foldl (fun a d => a * 62 + d) acc) := by
  intro ds
  induction ds with
  | nil => intro acc _; rfl
  | cons d rest ih =>
    intro acc hall
    have hdlt : d < 62 := hall d (by simp)
    have hrev : c.rev (c.alphabet.getD d 0) = d :=
      buildRev_self hd (by omega)
    simp only [List.map_cons, base62DecodeGo, hrev]
    rw [if_neg (by omega)]
    have : (d : Int).toNat = d := rfl
    rw [this]
    exact ih _ (fun x hx => hall x (by simp [hx]))

theorem base62_roundTrip {c : Codec} (hlen : 62 ≤ c.alphabet.length)
    (hd : distinctFirst62 c.alphabet) {u : Nat} (hu : u < 62 ^ 11) :
    c.base62DecodeFixed (c.base62EncodeFixed u) = .ok u := by
  unfold Codec.base62DecodeFixed Codec.base62EncodeFixed
  rw [if_neg (by simp [base62Digits_length])]
  rw [base62DecodeGo_map hlen hd _ 0
    (fun d hd' => base62Digits_lt 11 u d (List.mem_reverse.mp hd'))]
  rw [base62Digits_foldl 11 u 0 hu]
  simp

/-! ### Token-shape and constructor lemmas -/

theorem padChars_length (alp : List Nat) :
    ∀ count sum bitbuf bitsIn,
      (padChars alp count sum bitbuf bitsIn).length = count := by
  intro count
  induction count with
  | zero => intro sum bitbuf bitsIn; rfl
  | succ n ih =>
    intro sum bitbuf bitsIn
    unfold padChars
    simp [ih]

theorem hmacPadding_length (c : Codec) (enc : Nat) (kind : Option Nat) :
    (c.hmacPadding enc kind).length = c.macLen := by
  unfold Codec.hmacPadding
  exact padChars_length _ _ _ _ _

theorem base62EncodeFixed_length (c : Codec) (u : Nat) :
    (c.base62EncodeFixed u).length = 11 := by
  unfold Codec.base62EncodeFixed
  simp [base62Digits_length]

theorem token_length (c : Codec) (enc : Nat) (kind : Option Nat) :
    (c.token enc kind).length = 1 + 11 + c.macLen := by
  unfold Codec.token
  simp [base62EncodeFixed_length, hmacPadding_length]
  omega

theorem sha256_bytes_lt (msg : List Nat) : ∀ b ∈ sha256 msg, b < 256 := by
  intro b hb
  unfold sha256 at hb
  simp only [List.mem_flatten, List.mem_map] at hb
  obtain ⟨l, ⟨w, _, hw⟩, hbl⟩ := hb
  subst hw
  unfold word32ToBytes at hbl
  simp only [List.mem_cons, List.not_mem_nil, or_false] at hbl
  rcases hbl with h | h | h | h <;> subst h <;>
    exact Nat.mod_lt _ (by omega)

theorem beWord_foldl_lt : ∀ (l : List Nat) (acc : Nat),
    (∀ b ∈ l, b < 256) →
    l.foldl (fun a b => a * 256 + b) acc < (acc + 1) * 256 ^ l.length := by
  intro l
  induction l with
  | nil => intro acc _; simp
  | cons b rest ih =>
    intro acc hall
    have hb : b < 256 := hall b (by simp)
    have h1 := ih (acc * 256 + b) (fun x hx => hall x (by simp [hx]))
    calc (b :: rest).foldl (fun a b => a * 256 + b) acc
        = rest.foldl (fun a b => a * 256 + b) (acc * 256 + b) := rfl
      _ < (acc * 256 + b + 1) * 256 ^ rest.length := h1
      _ ≤ ((acc + 1) * 256) * 256 ^ rest.length := by
          have : acc * 256 + b + 1 ≤ (acc + 1) * 256 := by omega
          exact Nat.mul_le_mul_right _ this
      _ = (acc + 1) * 256 ^ (b :: rest).length := by
          rw [List.length_cons, Nat.pow_succ]
          ring

theorem beWord_take8_lt {l : List Nat} (hl : ∀ b ∈ l, b < 256) :
    beWord (l.take 8) < 2 ^ 64 := by
  have hlen : (l.take 8).length ≤ 8 := by
    simp [List.length_take]
  have hall : ∀ b ∈ l.take 8, b < 256 :=
    fun b hb => hl b (List.take_subset 8 l hb)
  have h := beWord_foldl_lt (l.take 8) 0 hall
  unfold beWord
  calc (l.take 8).foldl (fun a b => a * 256 + b) 0
      < (0 + 1) * 256 ^ (l.take 8).length := h
    _ ≤ 1 * 256 ^ 8 := by
        apply Nat.mul_le_mul_left
        exact Nat.pow_le_pow_right (by omega) hlen
    _ = 2 ^ 64 := by norm_num

/-- Structural facts about a successfully constructed codec: positive MAC
length, version below 62, alphabet of length at least 62, and all four
permutation subkeys in the 64-bit range. -/
theorem newCodecFromSecret_ok {cfg : Config} {c : Codec}
    (hc : newCodecFromSecret cfg = .ok c) :
    0 < c.macLen ∧ c.version < 62 ∧ 62 ≤ c.alphabet.length ∧
      c.k1 < 2 ^ 64 ∧ c.k2 < 2 ^ 64 ∧ c.k3 < 2 ^ 64 ∧ c.k4 < 2 ^ 64 := by
  unfold newCodecFromSecret at hc
  have hbytes := sha256_bytes_lt (sha256 cfg.secret ++ [0x4b])
  split_ifs at hc with h1 h2 h3
  · rw [if_neg (by norm_num [defaultAlphabet])] at hc
    simp only [Except.ok.injEq] at hc
    subst hc
    dsimp only
    refine ⟨by omega, by omega, by norm_num [defaultAlphabet], ?_, ?_, ?_, ?_⟩
    · exact beWord_take8_lt hbytes
    · exact beWord_take8_lt fun b hb => hbytes b (List.drop_subset _ _ hb)
    · exact beWord_take8_lt fun b hb => hbytes b (List.drop_subset _ _ hb)
    · exact beWord_take8_lt fun b hb => hbytes b (List.drop_subset _ _ hb)
  · by_cases h4 : cfg.alphabet.length < 62
    · rw [if_pos h4] at hc
      exact absurd hc (by simp)
    · rw [if_neg h4] at hc
      simp only [Except.ok.injEq] at hc
      subst hc
      dsimp only
      refine ⟨by omega, by omega, by omega, ?_, ?_, ?_, ?_⟩
      · exact beWord_take8_lt hbytes
      · exact beWord_take8_lt fun b hb => hbytes b (List.drop_subset _ _ hb)
      · exact beWord_take8_lt fun b hb => hbytes b (List.drop_subset _ _ hb)
      · exact beWord_take8_lt fun b hb => hbytes b (List.drop_subset _ _ hb)

/-- `P⁻¹ ∘ P = id` on `uint64` (claim sources: `permutation` /
`inversePermutation`). -/
theorem inversePermutation_permutation (c : Codec) {x : Nat}
    (hx : x < 2 ^ 64) (h1 : c.k1 < 2 ^ 64) (h2 : c.k2 < 2 ^ 64)
    (h3 : c.k3 < 2 ^ 64) (h4 : c.k4 < 2 ^ 64) :
    c.inversePermutation (c.permutation x) = x := by
  unfold Codec.permutation Codec.inversePermutation
  dsimp only
  have e1 : x ^^^ c.k1 < 2 ^ 64 := Nat.xor_lt_two_pow hx h1
  have e2 : rotateLeft64 (x ^^^ c.k1) 17 < 2 ^ 64 := rotateLeft64_lt _ _
  have e3 : add64 (rotateLeft64 (x ^^^ c.k1) 17) c.k2 < 2 ^ 64 := add64_lt _ _
  have e4 : rotateLeft64 (add64 (rotateLeft64 (x ^^^ c.k1) 17) c.k2) 31 <
      2 ^ 64 := rotateLeft64_lt _ _
  have e5 : rotateLeft64 (add64 (rotateLeft64 (x ^^^ c.k1) 17) c.k2) 31 ^^^
      c.k3 < 2 ^ 64 := Nat.xor_lt_two_pow e4 h3
  rw [sub64_add64 e5 h4, Nat.xor_cancel_right,
    rotateLeft64_inverse e3 (by omega) (by omega) (by omega),
    sub64_add64 e2 h2,
    rotateLeft64_inverse e1 (by omega) (by omega) (by omega),
    Nat.xor_cancel_right]

theorem permutation_lt (c : Codec) (x : Nat) : c.permutation x < 2 ^ 64 := by
  unfold Codec.permutation
  exact add64_lt _ _

theorem two_pow_64_le_62_pow_11 : 2 ^ 64 ≤ 62 ^ 11 := by norm_num

/-- Decoding inverts encoding on any codec whose structural invariants
hold and whose first 62 alphabet characters are distinct. -/
theorem decode_encode_ok {c : Codec} (hver : c.version < 62)
    (hlen : 62 ≤ c.alphabet.length) (h1 : c.k1 < 2 ^ 64) (h2 : c.k2 < 2 ^ 64)
    (h3 : c.k3 < 2 ^ 64) (h4 : c.k4 < 2 ^ 64)
    (hdist : distinctFirst62 c.alphabet) {v : Nat} (hv : v < 2 ^ 64)
    (kind : Option Nat) :
    c.decodeInternal (c.encodeUint64WithKind v kind) true kind = .ok v := by
  unfold Codec.encodeUint64WithKind Codec.token Codec.decodeInternal
  have henclt : c.permutation v < 2 ^ 64 := permutation_lt c v
  have hbody : (c.base62EncodeFixed (c.permutation v)).length = 11 :=
    base62EncodeFixed_length c _
  have hpad : (c.hmacPadding (c.permutation v) kind).length = c.macLen :=
    hmacPadding_length c _ kind
  rw [if_neg (by simp [hbody, hpad]; omega)]
  have hverch :
      ((c.alphabet.getD c.version 0 :: (c.base62EncodeFixed (c.permutation v) ++
        c.hmacPadding (c.permutation v) kind)).getD 0 0) =
        c.alphabet.getD c.version 0 := rfl
  rw [hverch, if_neg (by
    rw [show c.rev (c.alphabet.getD c.version 0) = (c.version : Int) from
      buildRev_self hdist (by omega)]
    simp)]
  have hdrop1 :
      ((c.alphabet.getD c.version 0 :: (c.base62EncodeFixed (c.permutation v) ++
        c.hmacPadding (c.permutation v) kind)).drop 1) =
        c.base62EncodeFixed (c.permutation v) ++
          c.hmacPadding (c.permutation v) kind := rfl
  rw [hdrop1]
  have htake : (c.base62EncodeFixed (c.permutation v) ++
      c.hmacPadding (c.permutation v) kind).take 11 =
      c.base62EncodeFixed (c.permutation v) := by
    rw [← hbody]
    exact List.take_left _ _
  rw [htake, base62_roundTrip hlen hdist
    (lt_of_lt_of_le henclt two_pow_64_le_62_pow_11)]
  have hdrop12 :
      ((c.alphabet.getD c.version 0 :: (c.base62EncodeFixed (c.permutation v) ++
        c.hmacPadding (c.permutation v) kind)).drop (1 + 11)) =
        c.hmacPadding (c.permutation v) kind := by
    have : (1 : Nat) + 11 = 1 + 11 := rfl
    rw [show ((c.alphabet.getD c.version 0 :: (c.base62EncodeFixed
      (c.permutation v) ++ c.hmacPadding (c.permutation v) kind)).drop (1 + 11))
      = ((c.base62EncodeFixed (c.permutation v) ++
        c.hmacPadding (c.permutation v) kind).drop 11) from rfl]
    rw [← hbody]
    exact List.drop_left _ _
  dsimp only
  rw [hdrop12, if_neg (by simp)]
  rw [if_neg (by simp)]
  rw [inversePermutation_permutation c hv h1 h2 h3 h4]

/-- C1 (amended): for every uint64 `v` and every successfully constructed
codec whose first 62 alphabet characters are pairwise distinct (the
constructor itself checks only the alphabet's length, not distinctness),
`DecodeToUint64 (EncodeUint64 v)` returns `v` with no error. -/
theorem claim1_roundTrip {cfg : Config} {c : Codec}
    (hc : newCodecFromSecret cfg = .ok c)
    (hdist : distinctFirst62 c.alphabet) {v : Nat} (hv : v < 2 ^ 64) :
    c.decodeToUint64 (c.encodeUint64 v) = .ok v := by
  obtain ⟨-, hver, hlen, h1, h2, h3, h4⟩ := newCodecFromSecret_ok hc
  exact decode_encode_ok hver hlen h1 h2 h3 h4 hdist hv c.kind

set_option maxRecDepth 1000000 in
/-- C1 witness: the round-trip theorem applied to the concrete codec
built from `cfgW` at id 3. -/
theorem claim1_roundTrip_witness :
    newCodecFromSecret cfgW = .ok codecW ∧ distinctFirst62 codecW.alphabet ∧
      codecW.decodeToUint64 (codecW.encodeUint64 3) = .ok 3 := by
  have hc : newCodecFromSecret cfgW = .ok codecW := by decide
  have hd : distinctFirst62 codecW.alphabet := by decide
  exact ⟨hc, hd, claim1_roundTrip hc hd (by norm_num)⟩

set_option maxRecDepth 1000000 in
/-- C1 counterexample: `cfgDup`'s alphabet contains at least 62 distinct
characters and the codec is successfully constructed with `version < 62`
and `macLen > 0`, yet `DecodeToUint64 (EncodeUint64 0)` fails with
`VersionMismatch` instead of returning 0: the constructor never checks
that the first 62 positions are distinct, and the duplicated `'0'` makes
the reverse table map the version character to index 1. -/
theorem claim1_counterexample :
    newCodecFromSecret cfgDup = .ok codecDup ∧
      0 < codecDup.macLen ∧ codecDup.version < 62 ∧
      62 ≤ codecDup.alphabet.dedup.length ∧
      codecDup.decodeToUint64 (codecDup.encodeUint64 0) =
        .error .versionMismatch := by
  refine ⟨by decide, by decide, by decide, by decide, by decide⟩

/-! ### Decode pipeline: error order and `DecodeBodyOnly` -/

theorem base62DecodeGo_error (c : Codec) :
    ∀ (s : List Nat) (acc : Nat), (∃ ch ∈ s, c.rev ch < 0) →
      base62DecodeGo c s acc = .error .invalidBase62Char := by
  intro s
  induction s with
  | nil => intro acc h; simp at h
  | cons ch rest ih =>
    intro acc h
    unfold base62DecodeGo
    by_cases hch : c.rev ch < 0
    · rw [if_pos hch]
    · rw [if_neg hch]
      apply ih
      rcases h with ⟨x, hx, hxneg⟩
      rcases List.mem_cons.mp hx with he | hm
      · exact absurd (he ▸ hxneg) hch
      · exact ⟨x, hm, hxneg⟩

theorem base62DecodeGo_ok (c : Codec) :
    ∀ (s : List Nat) (acc : Nat), (∀ ch ∈ s, 0 ≤ c.rev ch) →
      ∃ u, base62DecodeGo c s acc = .ok u := by
  intro s
  induction s with
  | nil => intro acc _; exact ⟨acc, rfl⟩
  | cons ch rest ih =>
    intro acc hall
    unfold base62DecodeGo
    rw [if_neg (by have := hall ch (by simp); omega)]
    exact ih _ fun x hx => hall x (by simp [hx])

theorem base62DecodeGo_ne_invalidLength (c : Codec) :
    ∀ (s : List Nat) (acc : Nat),
      base62DecodeGo c s acc ≠ .error .invalidLength := by
  intro s
  induction s with
  | nil => intro acc h; simp [base62DecodeGo] at h
  | cons ch rest ih =>
    intro acc h
    unfold base62DecodeGo at h
    by_cases hch : c.rev ch < 0
    · rw [if_pos hch] at h; simp at h
    · rw [if_neg hch] at h; exact ih _ h

theorem body_slice_length {s : List Nat} (hs : 12 ≤ s.length) :
    ((s.drop 1).take 11).length = 11 := by
  simp [List.length_take, List.length_drop]
  omega

/-- C4: `DecodeToUint64` checks in the fixed order length, version,
base-62 body, MAC, and returns the corresponding error identity for the
first failing check; when all pass it returns the inverse permutation of
the decoded body. -/
theorem claim4_decode_order (c : Codec) (kind : Option Nat) (s : List Nat) :
    (s.length ≠ 1 + 11 + c.macLen →
      c.decodeInternal s true kind = .error .invalidLength) ∧
    (s.length = 1 + 11 + c.macLen →
      c.rev (s.getD 0 0) ≠ (c.version : Int) →
      c.decodeInternal s true kind = .error .versionMismatch) ∧
    (s.length = 1 + 11 + c.macLen →
      c.rev (s.getD 0 0) = (c.version : Int) →
      (∃ ch ∈ (s.drop 1).take 11, c.rev ch < 0) →
      c.decodeInternal s true kind = .error .invalidBase62Char) ∧
    (∀ enc, s.length = 1 + 11 + c.macLen →
      c.rev (s.getD 0 0) = (c.version : Int) →
      c.base62DecodeFixed ((s.drop 1).take 11) = .ok enc →
      s.drop (1 + 11) ≠ c.hmacPadding enc kind →
      c.decodeInternal s true kind = .error .macVerification) ∧
    (∀ enc, s.length = 1 + 11 + c.macLen →
      c.rev (s.getD 0 0) = (c.version : Int) →
      c.base62DecodeFixed ((s.drop 1).take 11) = .ok enc →
      s.drop (1 + 11) = c.hmacPadding enc kind →
      c.decodeInternal s true kind = .ok (c.inversePermutation enc)) := by
  refine ⟨?_, ?_, ?_, ?_, ?_⟩
  · intro hlen
    unfold Codec.decodeInternal
    rw [if_pos hlen]
  · intro hlen hver
    unfold Codec.decodeInternal
    rw [if_neg (by omega), if_pos hver]

  · intro hlen hver hbad
    unfold Codec.decodeInternal
    rw [if_neg (by omega), if_neg (not_not_intro hver)]
    have hbody : c.base62DecodeFixed ((s.drop 1).take 11) =
        .error .invalidBase62Char := by
      unfold Codec.base62DecodeFixed
      rw [if_neg (by rw [body_slice_length (by omega)]; omega)]
      exact base62DecodeGo_error c _ 0 hbad
    rw [hbody]
  · intro enc hlen hver hbody hpad
    unfold Codec.decodeInternal
    rw [if_neg (by omega), if_neg (not_not_intro hver), hbody]
    dsimp only
    rw [if_pos hpad]
  · intro enc hlen hver hbody hpad
    unfold Codec.decodeInternal
    rw [if_neg (by omega), if_neg (not_not_intro hver), hbody]
    dsimp only
    rw [if_neg (not_not_intro hpad)]
    rfl

/-- C10: `DecodeBodyOnly` rejects with `InvalidLength` exactly the
strings shorter than 12 characters; on any longer string (also ones
longer than the full token) its result depends only on positions 1–11,
so pad tampering or trailing characters never change it. -/
theorem claim10_decodeBodyOnly (c : Codec) (s s2 : List Nat) :
    (s.length < 12 → c.decodeBodyOnly s = .error .invalidLength) ∧
    (12 ≤ s.length → c.decodeBodyOnly s ≠ .error .invalidLength) ∧
    (12 ≤ s.length → 12 ≤ s2.length →
      (s.drop 1).take 11 = (s2.drop 1).take 11 →
      c.decodeBodyOnly s = c.decodeBodyOnly s2) := by
  refine ⟨?_, ?_, ?_⟩
  · intro hlen
    unfold Codec.decodeBodyOnly
    rw [if_pos (by omega)]
  · intro hlen
    unfold Codec.decodeBodyOnly
    rw [if_neg (by omega)]
    unfold Codec.base62DecodeFixed
    rw [if_neg (by rw [body_slice_length hlen]; omega)]
    exact base62DecodeGo_ne_invalidLength c _ 0
  · intro hlen hlen2 hsame
    unfold Codec.decodeBodyOnly
    rw [if_neg (by omega), if_neg (by omega), hsame]

set_option maxRecDepth 1000000 in
/-- C4 witness: the five branches of the decode pipeline exercised on the
concrete codec `codecW`: the empty string, an all-`'A'` string of token
length, a token-length string with version char `'0'` and invalid body
characters, an honest token with a tampered pad byte, and an honest
token. -/
theorem claim4_decode_order_witness :
    codecW.decodeInternal [] true none = .error .invalidLength ∧
    codecW.decodeInternal (List.replicate 13 65) true none =
      .error .versionMismatch ∧
    codecW.decodeInternal (48 :: List.replicate 12 33) true none =
      .error .invalidBase62Char ∧
    codecW.decodeInternal ((codecW.encodeUint64 7).take 12 ++ [43]) true
      none = .error .macVerification ∧
    codecW.decodeInternal (codecW.encodeUint64 7) true none =
      .ok (codecW.inversePermutation (codecW.permutation 7)) := by
  refine ⟨(claim4_decode_order codecW none []).1 (by decide),
    (claim4_decode_order codecW none _).2.1 (by decide) (by decide),
    (claim4_decode_order codecW none _).2.2.1 (by decide) (by decide)
      (by decide),
    (claim4_decode_order codecW none _).2.2.2.1 (codecW.permutation 7)
      (by decide) (by decide) (by decide) (by decide),
    (claim4_decode_order codecW none _).2.2.2.2 (codecW.permutation 7)
      (by decide) (by decide) (by decide) (by decide)⟩

set_option maxRecDepth 1000000 in
/-- C10 witness: `DecodeBodyOnly` on a 1-character string, on an honest
token, and on the same token with its pad replaced by garbage and extra
trailing characters appended. -/
theorem claim10_decodeBodyOnly_witness :
    codecW.decodeBodyOnly [48] = .error .invalidLength ∧
    codecW.decodeBodyOnly (codecW.encodeUint64 2025) ≠
      .error .invalidLength ∧
    codecW.decodeBodyOnly (codecW.encodeUint64 2025) =
      codecW.decodeBodyOnly
        ((codecW.encodeUint64 2025).take 12 ++ [33, 33, 33, 33]) := by
  refine ⟨(claim10_decodeBodyOnly codecW [48] []).1 (by decide),
    (claim10_decodeBodyOnly codecW (codecW.encodeUint64 2025) []).2.1
      (by decide),
    (claim10_decodeBodyOnly codecW _ _).2.2 (by decide) (by decide)
      (by decide)⟩

/-! ### Claims about the throttler -/

/-- C2 counterexample: after `Stop` has returned on a burst-2 throttler
whose tokens were never consumed, `TryAcquire` still returns `true`
(the claim says every subsequent `TryAcquire` returns `false`), and
`Acquire`'s select may take the token case and return success rather
than the stopped error: `TryAcquire` never consults the stop channel and
`Stop` does not drain the bucket. -/
theorem claim2_counterexample :
    thrWStopped.stopClosed = true ∧
    (tryAcquire thrWStopped).1 = true ∧
    AcquireStep false thrWStopped
      (.ok, { thrWStopped with tokens := thrWStopped.tokens - 1 }) :=
  ⟨by decide, by decide, .token (by decide)⟩

/-- C2 (amended): after `Stop`, `TryAcquire` succeeds exactly while
buffered tokens remain — `Stop` does not drain the bucket and
`TryAcquire` never consults the stop channel — and in any state whose
bucket is empty, `TryAcquire` returns `false` and an `Acquire` select
resolving in that state (with the caller's context live) can only take
the stop case and return the stopped error.  Emptiness is not stable:
the refill loop may exit after the stop, but a pending ticker tick may
also still win its select and deposit one more token. -/
theorem claim2_stopped_behavior (s : ThrState) (hstop : s.stopClosed = true) :
    ((tryAcquire s).1 = true ↔ 0 < s.tokens) ∧
    (s.tokens = 0 → (tryAcquire s).1 = false) ∧
    (s.tokens = 0 → ∀ (r : AcquireResult) (s2 : ThrState),
      AcquireStep false s (r, s2) → r = .stoppedErr) ∧
    AcquireStep false s (.stoppedErr, s) ∧
    RefillStep false s s ∧
    (s.tokens < s.burst →
      RefillStep false s { s with tokens := s.tokens + 1 }) := by
  refine ⟨?_, ?_, ?_, .stopped hstop, .stopExit hstop,
    fun h => .tickDeposit h⟩
  · unfold tryAcquire
    by_cases h : 0 < s.tokens
    · simp [h]
    · simp [h]
  · intro h0
    unfold tryAcquire
    simp [h0]
  · intro h0 r s2 hstep
    cases hstep with
    | stopped h => rfl
    | token h => omega

/-- C2 witness: the amended statement applied to the concrete stopped,
drained throttler `thrWEmpty`, including the post-stop tick race that can
refill its empty bucket. -/
theorem claim2_stopped_behavior_witness :
    (tryAcquire thrWEmpty).1 = false ∧
    AcquireStep false thrWEmpty (.stoppedErr, thrWEmpty) ∧
    RefillStep false thrWEmpty
      { thrWEmpty with tokens := thrWEmpty.tokens + 1 } := by
  have h := claim2_stopped_behavior thrWEmpty (by decide)
  exact ⟨h.2.1 (by decide), h.2.2.2.1, h.2.2.2.2.2 (by decide)⟩

theorem thrStopN_done (hasOnStop : Bool) :
    ∀ (n : Nat) (s : ThrState), s.stopOnceDone = true →
      thrStopN hasOnStop n s = (s, []) := by
  intro n
  induction n with
  | zero => intro s _; rfl
  | succ n ih =>
    intro s hdone
    unfold thrStopN thrStop
    simp only [hdone, if_true]
    simp [ih s hdone]

/-- C7: across any positive number of `Stop` calls on a fresh throttler
with a configured `onStop`, the accumulated event trace is exactly one
`onStop` invocation followed by one publication of the stop signal, and
an `Acquire` can observe the stopped error only once the stop signal is
published — hence only after `onStop` has completed. -/
theorem claim7_stop_once (n : Nat) (hn : 1 ≤ n) (s : ThrState)
    (hfresh : s.stopOnceDone = false) :
    (thrStopN true n s).2 = [.onStopCall, .stopPublished] ∧
    (thrStopN true n s).1.stopClosed = true ∧
    (∀ (cd : Bool) (s1 : ThrState) (r : AcquireResult) (s2 : ThrState),
      AcquireStep cd s1 (r, s2) → r = .stoppedErr →
      s1.stopClosed = true) := by
  obtain ⟨m, rfl⟩ : ∃ m, n = m + 1 := ⟨n - 1, by omega⟩
  have hfirst : thrStop true s =
      ({ s with stopOnceDone := true, stopClosed := true },
        [.onStopCall, .stopPublished]) := by
    unfold thrStop
    simp [hfresh]
  have hrest := thrStopN_done true m
    { s with stopOnceDone := true, stopClosed := true } rfl
  refine ⟨?_, ?_, ?_⟩
  · unfold thrStopN
    simp [hfirst, hrest]
  · unfold thrStopN
    simp [hfirst, hrest]
  · intro cd s1 r s2 hstep hr
    cases hstep with
    | canceled => exact absurd hr (by simp)
    | stopped h => exact h
    | token h => exact absurd hr (by simp)

/-- C7 witness: three successive `Stop` calls on the concrete fresh
throttler `thrW`. -/
theorem claim7_stop_once_witness :
    (thrStopN true 3 thrW).2 = [.onStopCall, .stopPublished] ∧
    (thrStopN true 3 thrW).1.stopClosed = true := by
  have h := claim7_stop_once 3 (by norm_num) thrW (by decide)
  exact ⟨h.1, h.2.1⟩

/-! ### Claims about the debouncer and coalescer -/

/-- C5: on the first `Stop` of a debouncer whose snapshot has a pending
value, a stop mode in `{Flush, FlushAndCallback}` with `trailing` set
emits the snapshotted `last` through the trigger callback; a stop mode in
`{CallbackOnly, FlushAndCallback}` with `onStop` configured invokes
`onStop` with the same pre-flush `last`, as the final event (after any
flush); `Stop` is idempotent, and subsequent `Trigger`/`Flush` are
no-ops. -/
theorem claim5_debouncer_stop {T : Type} (opts : DebOpts T)
    (s : DebState T) (hstopped : s.stopped = false)
    (hpending : s.pending = true) :
    ((opts.stopMode = .flush ∨ opts.stopMode = .flushAndCallback) →
      opts.trailing = true → .cb s.last ∈ (debStop opts s).2) ∧
    ((opts.stopMode = .callbackOnly ∨ opts.stopMode = .flushAndCallback) →
      opts.hasOnStop = true →
      (debStop opts s).2.getLast? = some (.onStopCall s.last)) ∧
    (debStop opts s).1.stopped = true ∧
    debStop opts (debStop opts s).1 = ((debStop opts s).1, []) ∧
    (∀ v, debTrigger opts v (debStop opts s).1 = ((debStop opts s).1, [])) ∧
    debFlush opts (debStop opts s).1 = ((debStop opts s).1, []) := by
  have hred : debStop opts s =
      ({ s with stopped := true, pending := false },
        (if (opts.stopMode == .flush ||
            opts.stopMode == .flushAndCallback) && s.pending &&
            opts.trailing then [.cb s.last] else []) ++
          (if (opts.stopMode == .callbackOnly ||
            opts.stopMode == .flushAndCallback) && opts.hasOnStop then
            [.onStopCall s.last] else [])) := by
    unfold debStop
    simp [hstopped]
  refine ⟨?_, ?_, ?_, ?_, ?_, ?_⟩
  · intro hmode htrail
    rw [hred]
    have hflush : ((opts.stopMode == .flush ||
        opts.stopMode == .flushAndCallback) && s.pending &&
        opts.trailing) = true := by
      rcases hmode with h | h <;> simp [h, hpending, htrail]
    simp [hflush]
  · intro hmode hhas
    rw [hred]
    have hcbk : ((opts.stopMode == .callbackOnly ||
        opts.stopMode == .flushAndCallback) && opts.hasOnStop) = true := by
      rcases hmode with h | h <;> simp [h, hhas]
    rw [hcbk]
    simp
  · rw [hred]
  · rw [hred]
    unfold debStop
    simp
  · intro v
    rw [hred]
    unfold debTrigger
    simp
  · rw [hred]
    unfold debFlush
    simp

/-- C5 witness: a flush-and-callback debouncer with a pending value 5. -/
theorem claim5_debouncer_stop_witness :
    .cb 5 ∈ (debStop ⟨false, true, .flushAndCallback, true⟩
      (⟨5, true, false⟩ : DebState Nat)).2 ∧
    (debStop ⟨false, true, .flushAndCallback, true⟩
      (⟨5, true, false⟩ : DebState Nat)).2.getLast? =
        some (.onStopCall 5) ∧
    (debStop ⟨false, true, .flushAndCallback, true⟩
      (⟨5, true, false⟩ : DebState Nat)).1.stopped = true := by
  have h := claim5_debouncer_stop ⟨false, true, .flushAndCallback, true⟩
    (⟨5, true, false⟩ : DebState Nat) rfl rfl
  exact ⟨h.1 (Or.inr rfl) rfl, h.2.1 (Or.inr rfl) rfl, h.2.2.1⟩

theorem coAddList_fold {T : Type} (f : T → T → T) :
    ∀ (vs : List T) (s : CoState T), s.stopped = false → s.hasAcc = true →
      coAddList f vs s = { s with acc := vs.foldl f s.acc } := by
  intro vs
  induction vs with
  | nil => intro s _ _; rfl
  | cons v rest ih =>
    intro s h1 h2
    have hstep : coAdd f v s = { s with acc := f s.acc v } := by
      unfold coAdd
      simp [h1, h2]
    calc coAddList f (v :: rest) s
        = coAddList f rest (coAdd f v s) := rfl
      _ = coAddList f rest { s with acc := f s.acc v } := by rw [hstep]
      _ = { s with acc := (v :: rest).foldl f s.acc } := by
          rw [ih { s with acc := f s.acc v } h1 h2]
          simp

/-- C6: on a coalescer with no held accumulator, the first `Add` stores
the value and each later `Add` folds into it, so the accumulator after
`Add v; Add vs...` is the left fold; `Flush`, window expiry and
stop-flush each deliver exactly that fold to `emit`. -/
theorem claim6_coalescer_fold {T : Type} (f : T → T → T) (s : CoState T)
    (hstop : s.stopped = false) (hacc : s.hasAcc = false) (v : T)
    (vs : List T) :
    (coAdd f v s).acc = v ∧
    (coAdd f v s).hasAcc = true ∧
    (∀ s1 : CoState T, s1.stopped = false → s1.hasAcc = true → ∀ w,
      (coAdd f w s1).acc = f s1.acc w) ∧
    (coAddList f (v :: vs) s).acc = vs.foldl f v ∧
    (coAddList f (v :: vs) s).hasAcc = true ∧
    (coFlush (coAddList f (v :: vs) s)).2 = [.emitCall (vs.foldl f v)] ∧
    (coExpire (coAddList f (v :: vs) s)).2 = [.emitCall (vs.foldl f v)] ∧
    (∀ hs, (coStop .flush hs (coAddList f (v :: vs) s)).2 =
      [.emitCall (vs.foldl f v)]) := by
  have hfirst : coAdd f v s = { s with acc := v, hasAcc := true } := by
    unfold coAdd
    simp [hstop, hacc]
  have hlist : coAddList f (v :: vs) s =
      { s with acc := vs.foldl f v, hasAcc := true } := by
    calc coAddList f (v :: vs) s
        = coAddList f vs (coAdd f v s) := rfl
      _ = coAddList f vs { s with acc := v, hasAcc := true } := by
          rw [hfirst]
      _ = { s with acc := vs.foldl f v, hasAcc := true } :=
          coAddList_fold f vs _ hstop rfl
  refine ⟨by rw [hfirst], by rw [hfirst], ?_, by rw [hlist],
    by rw [hlist], ?_, ?_, ?_⟩
  · intro s1 h1 h2 w
    unfold coAdd
    simp [h1, h2]
  · rw [hlist]
    unfold coFlush
    simp [hstop]
  · rw [hlist]
    unfold coExpire
    simp [hstop]
  · intro hs
    rw [hlist]
    unfold coStop
    simp [hstop]

/-- C6 witness: `Add 1; Add 2` under integer addition accumulates 3 and
`Flush` emits 3, matching the coalescer test. -/
theorem claim6_coalescer_fold_witness :
    (coAddList (fun a b => a + b) [1, 2] (coInit Nat)).acc = 3 ∧
    (coFlush (coAddList (fun a b => a + b) [1, 2] (coInit Nat))).2 =
      [.emitCall 3] := by
  have h := claim6_coalescer_fold (fun a b => a + b) (coInit Nat) rfl rfl
    1 [2]
  exact ⟨h.2.2.2.1, h.2.2.2.2.2.1⟩

/-- C9: the first `Stop` with a stop mode in
`{CallbackOnly, FlushAndCallback}` and a configured `onStop` invokes
`onStop` even when nothing is pending: `shouldCallback` never consults
`pending`/`hasAcc`, so `onStop` receives the stale `last` (debouncer)
or stale `acc` (coalescer) — the zero value of `T` on a fresh
instance. -/
theorem claim9_onStop_stale {T : Type} [Inhabited T] (opts : DebOpts T)
    (s : DebState T) (sc : CoState T) (smode : StopMode)
    (hmode : opts.stopMode = .callbackOnly ∨
      opts.stopMode = .flushAndCallback)
    (hhas : opts.hasOnStop = true)
    (hds : s.stopped = false) (hdp : s.pending = false)
    (hsm : smode = .callbackOnly ∨ smode = .flushAndCallback)
    (hcs : sc.stopped = false) (hca : sc.hasAcc = false) :
    (debStop opts s).2 = [.onStopCall s.last] ∧
    (coStop smode true sc).2 = [.onStopCall sc.acc] ∧
    (debInit T).last = default ∧ (coInit T).acc = default := by
  refine ⟨?_, ?_, rfl, rfl⟩
  · unfold debStop
    rcases hmode with h | h <;> simp [hds, hdp, h, hhas]
  · unfold coStop
    rcases hsm with h | h <;> simp [hcs, hca, h]

/-- C9 witness: a fresh callback-only debouncer and a fresh
flush-and-callback coalescer over `Nat`: `onStop` fires with the zero
value 0 although nothing was ever triggered or added. -/
theorem claim9_onStop_stale_witness :
    (debStop ⟨false, true, .callbackOnly, true⟩ (debInit Nat)).2 =
      [.onStopCall 0] ∧
    (coStop .flushAndCallback true (coInit Nat)).2 = [.onStopCall 0] := by
  have h := claim9_onStop_stale ⟨false, true, .callbackOnly, true⟩
    (debInit Nat) (coInit Nat) .flushAndCallback (Or.inl rfl) rfl rfl rfl
    (Or.inr rfl) rfl rfl
  exact ⟨h.1, h.2.1⟩

/-- C3 counterexample: a trailing debouncer with a pending value: its
`Flush` invokes the trigger callback while holding the instance lock
(`Flush` takes the lock, defers the unlock, and calls `d.cb(d.last)` in
between), refuting the claim that every callback invocation occurs
outside the instance's lock. -/
theorem claim3_counterexample :
    .cbE ∈ debFlushTrace ⟨false, true, .noop, false⟩
      (⟨0, true, false⟩ : DebState Nat) ∧
    cbUnderLock (debFlushTrace ⟨false, true, .noop, false⟩
      (⟨0, true, false⟩ : DebState Nat)) = true := by
  refine ⟨by decide, by decide⟩

/-- C3 (amended): the snapshot-then-release discipline holds for both
`Stop` paths and for every Coalescer emission (`Flush`, window-timer
loop, stop-flush), but the Debouncer's trigger callback is invoked while
the instance lock is held in `Trigger` (leading), `Flush`, and the timer
loops. -/
theorem claim3_callback_locking {T : Type} (opts : DebOpts T)
    (s : DebState T) (sc : CoState T) (smode : StopMode)
    (hasOnStop : Bool) :
    cbUnderLock (debStopTrace opts s) = false ∧
    cbUnderLock (coFlushTrace sc) = false ∧
    cbUnderLock (coLoopTrace sc) = false ∧
    cbUnderLock (coStopTrace smode hasOnStop sc) = false ∧
    (.cbE ∈ debTriggerTrace opts s →
      cbUnderLock (debTriggerTrace opts s) = true) ∧
    (.cbE ∈ debFlushTrace opts s →
      cbUnderLock (debFlushTrace opts s) = true) ∧
    (.cbE ∈ debTimerTrace opts s →
      cbUnderLock (debTimerTrace opts s) = true) := by
  refine ⟨?_, ?_, ?_, ?_, ?_, ?_, ?_⟩
  · unfold debStopTrace
    by_cases h : s.stopped
    · simp [h]
      decide
    · simp only [h, if_false]
      cases hA : (opts.stopMode == .flush ||
          opts.stopMode == .flushAndCallback) && s.pending &&
          opts.trailing <;>
        cases hB : (opts.stopMode == .callbackOnly ||
            opts.stopMode == .flushAndCallback) && opts.hasOnStop <;>
          simp [hA, hB] <;> decide
  · unfold coFlushTrace
    by_cases h : (sc.stopped || !sc.hasAcc) = true <;> simp [h] <;> decide
  · unfold coLoopTrace
    by_cases h : sc.stopped
    · simp [h]
      decide
    · by_cases h2 : sc.hasAcc <;> simp [h, h2] <;> decide
  · unfold coStopTrace
    by_cases h : sc.stopped
    · simp [h]
      decide
    · simp only [h, if_false]
      cases hA : (smode == .flush || smode == .flushAndCallback) &&
          sc.hasAcc <;>
        cases hB : (smode == .callbackOnly ||
            smode == .flushAndCallback) && hasOnStop <;>
          simp [hA, hB] <;> decide
  · unfold debTriggerTrace
    by_cases h : s.stopped
    · simp [h]
    · by_cases h2 : (opts.leading && !s.pending) = true
      all_goals simp [h, h2]
      all_goals decide
  · unfold debFlushTrace
    by_cases h : (s.stopped || !s.pending) = true
    · simp [h]
    · by_cases h2 : opts.trailing
      all_goals simp [h, h2]
      all_goals decide
  · unfold debTimerTrace
    by_cases h : s.stopped
    · simp [h]
    · by_cases h2 : (opts.trailing && s.pending) = true
      all_goals simp [h, h2]
      all_goals decide

/-- C3 witness: the amended statement at a concrete pending trailing
debouncer state and a concrete accumulating coalescer state. -/
theorem claim3_callback_locking_witness :
    cbUnderLock (debStopTrace ⟨false, true, .flushAndCallback, true⟩
      (⟨7, true, false⟩ : DebState Nat)) = false ∧
    cbUnderLock (coFlushTrace (⟨7, true, false⟩ : CoState Nat)) = false ∧
    cbUnderLock (debFlushTrace ⟨false, true, .flushAndCallback, true⟩
      (⟨7, true, false⟩ : DebState Nat)) = true := by
  have h := claim3_callback_locking ⟨false, true, .flushAndCallback, true⟩
    (⟨7, true, false⟩ : DebState Nat) (⟨7, true, false⟩ : CoState Nat)
    .noop false
  exact ⟨h.1, h.2.1, h.2.2.2.2.2.1 (by decide)⟩

/-- C8 counterexample: with the default codec set, the JSON string `" "`
(a single space — a non-empty JSON string) unmarshals to 0, although
decoding it fails with `InvalidLength`: the adapter trims whitespace
before the emptiness test, so the claim's "non-empty string is decoded"
clause fails on whitespace-only strings. -/
theorem claim8_counterexample :
    idUnmarshalJSON (some codecW) (.str [32]) = .ok 0 ∧
    ([32] : List Nat) ≠ [] ∧
    codecW.decodeToUint64 [32] = .error .invalidLength := by
  exact ⟨rfl, by decide, by decide⟩

/-- C8 (amended): `UnmarshalJSON` maps JSON null to 0; a JSON string
that is empty after whitespace trimming to 0; a string non-empty after
trimming to the decode (through the process-global codec) of its trimmed
form, erring when the codec is unset or the decode fails; a `uint64`
number to the raw value; and any other shape to an error. -/
theorem claim8_unmarshal (cod : Option Codec) (c : Codec) (s : List Nat)
    (n : Nat) (e : CodecErr) (u : Nat) :
    idUnmarshalJSON cod .null = .ok 0 ∧
    (trimSpace s = [] → idUnmarshalJSON cod (.str s) = .ok 0) ∧
    (trimSpace s ≠ [] →
      idUnmarshalJSON none (.str s) = .error .codecUnset) ∧
    (trimSpace s ≠ [] → c.decodeToUint64 (trimSpace s) = .error e →
      idUnmarshalJSON (some c) (.str s) = .error (.invalidEncoded e)) ∧
    (trimSpace s ≠ [] → c.decodeToUint64 (trimSpace s) = .ok u →
      idUnmarshalJSON (some c) (.str s) = .ok u) ∧
    idUnmarshalJSON cod (.num n) = .ok n ∧
    idUnmarshalJSON cod .other = .error .badShape := by
  refine ⟨rfl, ?_, ?_, ?_, ?_, rfl, rfl⟩
  · intro ht
    unfold idUnmarshalJSON
    dsimp only
    rw [if_pos ht]
  · intro ht
    unfold idUnmarshalJSON
    dsimp only
    rw [if_neg ht]
  · intro ht hdec
    unfold idUnmarshalJSON
    dsimp only
    rw [if_neg ht, hdec]
  · intro ht hdec
    unfold idUnmarshalJSON
    dsimp only
    rw [if_neg ht, hdec]

set_option maxRecDepth 1000000 in
/-- C8 witness: the amended statement exercised on concrete inputs: a
whitespace-only string, a string with no codec set, a short string that
fails decoding, an honest token for id 9, the number 7, and a non-string
non-number shape. -/
theorem claim8_unmarshal_witness :
    idUnmarshalJSON (some codecW) (.str [32, 32]) = .ok 0 ∧
    idUnmarshalJSON none (.str [65]) = .error .codecUnset ∧
    idUnmarshalJSON (some codecW) (.str [65]) =
      .error (.invalidEncoded .invalidLength) ∧
    idUnmarshalJSON (some codecW) (.str (codecW.encodeUint64 9)) = .ok 9 ∧
    idUnmarshalJSON (some codecW) (.num 7) = .ok 7 ∧
    idUnmarshalJSON (some codecW) .other = .error .badShape := by
  refine ⟨(claim8_unmarshal (some codecW) codecW [32, 32] 0
      .invalidLength 0).2.1 (by decide),
    (claim8_unmarshal none codecW [65] 0 .invalidLength 0).2.2.1
      (by decide),
    (claim8_unmarshal (some codecW) codecW [65] 0 .invalidLength 0).2.2.2.1
      (by decide) (by decide),
    (claim8_unmarshal (some codecW) codecW (codecW.encodeUint64 9) 0
      .invalidLength 9).2.2.2.2.1 (by decide) (by decide),
    (claim8_unmarshal (some codecW) codecW [] 7 .invalidLength 0).2.2.2.2.2.1,
    (claim8_unmarshal (some codecW) codecW [] 0 .invalidLength
      0).2.2.2.2.2.2⟩

end Gx
